import Mathlib

/-!
Verification of the schema-scoped graph execution engine demonstrated in
docs/docs/how-tos/pass_private_state.ipynb.  The engine itself (StateGraph,
compile, invoke) is not part of the repository sources; every definition
below is modelled from the specification's description of the Schema
Descriptor, State Store, Node, Graph Builder and Executor components, and
the demonstration graph is transcribed from the notebook cell.
-/

namespace PrivState

/-- Field names are strings (TypedDict keys in the notebook). -/
abbrev Field := String

/-- All demonstrated values are strings. -/
abbrev Value := String

/-- Modelled from the spec: a Schema Descriptor is a set of named fields;
we keep the declaration order of the TypedDict. -/
abbrev Schema := List Field

/-- Modelled from the spec: a State is a mapping from field name to value,
represented as an association list in write order. -/
abbrev State := List (Field × Value)

/-- Look up the value bound to a field, if any. -/
def State.get (s : State) (f : Field) : Option Value :=
  (s.find? (fun p => p.1 == f)).map (fun p => p.2)

/-- The field names present in a state, in order. -/
def State.keys (s : State) : List Field :=
  s.map (fun p => p.1)

/-- Whether a field has been written in a state. -/
def State.hasField (s : State) (f : Field) : Bool :=
  s.any (fun p => p.1 == f)

/-- Modelled from the spec: `project(schema)` of the State Store — a new
state holding exactly the fields named in the schema, taken from the
accumulated values; reports the first field never written. -/
def project (schema : Schema) (s : State) : Except Field State :=
  match schema with
  | [] => .ok []
  | f :: rest =>
    match s.get f with
    | none => .error f
    | some v => (project rest s).map (fun t => (f, v) :: t)

/-- Overwrite the binding of one field, or append it if absent. -/
def setField (s : State) (f : Field) (v : Value) : State :=
  match s with
  | [] => [(f, v)]
  | (g, w) :: rest => if g == f then (f, v) :: rest else (g, w) :: setField rest f v

/-- Modelled from the spec: `merge(partialState)` of the State Store —
every field of the node's returned state overwrites or creates the
corresponding entry; other fields are left untouched. -/
def merge (s : State) (out : State) : State :=
  out.foldl (fun acc fv => setField acc fv.1 fv.2) s

/-- Keep only the fields a schema names (the overall-schema filter applied
to the final snapshot). -/
def filterSchema (schema : Schema) (s : State) : State :=
  s.filter (fun p => schema.contains p.1)

/-- Modelled from the spec: a Node is a named unit of computation bound to
an input schema and an output schema.  The schemas stand for the Python
function's own name and its parameter/return TypedDict annotations, so a
`Node` value is exactly the "bare callable" handed to `add_node`.
Exceptions raised by the computation are modelled by `Except String`. -/
structure Node where
  name : String
  inputSchema : Schema
  outputSchema : Schema
  compute : State → Except String State

/-- Modelled from the spec: run-time errors of the Executor. -/
inductive RunError where
  | MissingFieldError (node : String) (field : Field)
  | NodeExecutionError (node : String) (orig : String)
  deriving Repr, DecidableEq

/-- One observable event of a run: a node's computation being invoked on a
projected input, or its output being merged (recording the accumulated
state right after the merge). -/
inductive Step where
  | invoked (node : String) (input : State)
  | merged (node : String) (accAfter : State)
  deriving Repr, DecidableEq

/-- Modelled from the spec: the Executor's walk along the compiled chain.
For each node in edge order: project its input from the accumulated state
(failing with `MissingFieldError` before the node is invoked), invoke its
computation (a failure becomes `NodeExecutionError` carrying the node's
name and the original message, with no merge performed), merge the output,
and continue.  Returns the trace of steps and either the final accumulated
snapshot or the error that aborted the run. -/
def execChain : List Node → State → List Step × Except RunError State
  | [], acc => ([], .ok acc)
  | n :: rest, acc =>
    match project n.inputSchema acc with
    | .error f => ([], .error (.MissingFieldError n.name f))
    | .ok inp =>
      match n.compute inp with
      | .error msg => ([.invoked n.name inp], .error (.NodeExecutionError n.name msg))
      | .ok out =>
        let acc2 := merge acc out
        let (tr, res) := execChain rest acc2
        (.invoked n.name inp :: .merged n.name acc2 :: tr, res)

/-- Modelled from the spec: a compiled Graph — the overall (public) schema
and the unique chain of nodes from START to END. -/
structure Graph where
  overallSchema : Schema
  chain : List Node

/-- The trace of steps produced by running a compiled graph. -/
def Graph.trace (g : Graph) (init : State) : List Step :=
  (execChain g.chain init).1

/-- The accumulated snapshot (or error) of a run, before the final
overall-schema filter. -/
def Graph.rawResult (g : Graph) (init : State) : Except RunError State :=
  (execChain g.chain init).2

/-- Modelled from the spec: `Graph.run` — execute the chain and return the
final state filtered to the overall schema, as the notebook's
`graph.invoke` does. -/
def Graph.run (g : Graph) (init : State) : Except RunError State :=
  (g.rawResult init).map (filterSchema g.overallSchema)

/-- The node names invoked during a trace, in order. -/
def invokedNames (tr : List Step) : List String :=
  tr.filterMap (fun s => match s with | .invoked n _ => some n | _ => none)

end PrivState

namespace PrivState

/-- Modelled from the spec: the sentinel name of the run's entry. -/
def START : String := "__start__"

/-- Modelled from the spec: the sentinel name of the run's exit. -/
def END : String := "__end__"

/-- Modelled from the spec: compile-time validation errors (the
`GraphValidationError` taxonomy). -/
inductive CompileError where
  | DuplicateNodeError (name : String)
  | UnknownEdgeEndpoint (name : String)
  | UnreachableNodeError (name : String)
  | BadTopology
  deriving Repr, DecidableEq

/-- Modelled from the spec: the Graph Builder accumulates nodes and
directed edges over an overall schema. -/
structure Builder where
  overallSchema : Schema
  nodes : List Node
  edges : List (String × String)

/-- Modelled from the spec: `newGraph(overallSchema)` returns an empty
Builder. -/
def newGraph (schema : Schema) : Builder :=
  { overallSchema := schema, nodes := [], edges := [] }

/-- Modelled from the spec: `add_node` registers a bare callable; the
node's name and schemas travel with the function value itself. -/
def Builder.add_node (b : Builder) (n : Node) : Builder :=
  { b with nodes := b.nodes ++ [n] }

/-- Modelled from the spec: `add_edge(from, to)` records a directed edge,
both endpoints referenced by name. -/
def Builder.add_edge (b : Builder) (src dst : String) : Builder :=
  { b with edges := b.edges ++ [(src, dst)] }

/-- The destination of the unique edge out of a source name, if any. -/
def successor (edges : List (String × String)) (src : String) : Option String :=
  (edges.find? (fun e => e.1 == src)).map (fun e => e.2)

/-- Find a registered node by name. -/
def findNode (nodes : List Node) (name : String) : Option Node :=
  nodes.find? (fun n => n.name == name)

/-- First duplicated element of a list of names, if any. -/
def firstDup : List String → Option String
  | [] => none
  | x :: xs => if xs.contains x then some x else firstDup xs

/-- Follow successor edges from a name until END, collecting the visited
nodes; the fuel bounds the walk by the number of registered nodes, so a
cycle is reported as a topology error. -/
def buildChain (nodes : List Node) (edges : List (String × String)) :
    Nat → String → Except CompileError (List Node)
  | 0, _ => .error .BadTopology
  | fuel + 1, cur =>
    match successor edges cur with
    | none => .error .BadTopology
    | some nxt =>
      if nxt == END then .ok []
      else
        match findNode nodes nxt with
        | none => .error (.UnknownEdgeEndpoint nxt)
        | some n => (buildChain nodes edges fuel nxt).map (fun c => n :: c)

/-- Whether both endpoints of an edge are registered names or sentinels. -/
def validEdge (nodes : List Node) (e : String × String) : Bool :=
  (e.1 == START || (findNode nodes e.1).isSome) &&
  (e.2 == END || (findNode nodes e.2).isSome)

/-- Modelled from the spec: `compile()` — checks for duplicate node names,
unknown edge endpoints, exactly one edge out of START and one into END,
builds the unique chain from START, rejects unreachable nodes, and
produces the immutable compiled Graph. -/
def Builder.compile (b : Builder) : Except CompileError Graph :=
  match firstDup (b.nodes.map (fun n => n.name)) with
  | some n => .error (.DuplicateNodeError n)
  | none =>
    match b.edges.find? (fun e => !(validEdge b.nodes e)) with
    | some e => .error (.UnknownEdgeEndpoint (if validEdge b.nodes (e.1, END) then e.2 else e.1))
    | none =>
      if (b.edges.filter (fun e => e.1 == START)).length != 1 then .error .BadTopology
      else if (b.edges.filter (fun e => e.2 == END)).length != 1 then .error .BadTopology
      else
        match buildChain b.nodes b.edges (b.nodes.length + 1) START with
        | .error err => .error err
        | .ok chain =>
          match b.nodes.find? (fun n => !(chain.map Node.name).contains n.name) with
          | some n => .error (.UnreachableNodeError n.name)
          | none => .ok { overallSchema := b.overallSchema, chain := chain }

end PrivState

namespace PrivState

/-- The overall (public) schema of the demonstration graph: `OverallState`
is the TypedDict with the single key `a`. -/
def OverallState : Schema := ["a"]

/-- `Node1Output`: the TypedDict with the single key `private_data`. -/
def Node1Output : Schema := ["private_data"]

/-- `Node2Input`: the TypedDict with the single key `private_data`. -/
def Node2Input : Schema := ["private_data"]

/-- The notebook's `node_1`: annotated `OverallState → Node1Output`,
returns the private data. -/
def node_1 : Node :=
  { name := "node_1", inputSchema := OverallState, outputSchema := Node1Output,
    compute := fun _ => .ok [("private_data", "set by node_1")] }

/-- The notebook's `node_2`: annotated `Node2Input → OverallState`,
consumes the private data and writes `a`. -/
def node_2 : Node :=
  { name := "node_2", inputSchema := Node2Input, outputSchema := OverallState,
    compute := fun _ => .ok [("a", "set by node_2")] }

/-- The notebook's `node_3`: annotated `OverallState → OverallState`. -/
def node_3 : Node :=
  { name := "node_3", inputSchema := OverallState, outputSchema := OverallState,
    compute := fun _ => .ok [("a", "set by node_3")] }

/-- The notebook's builder: three bare callables registered with
`add_node`, chained by `add_edge` using string names and the sentinels. -/
def demoBuilder : Builder :=
  (((((((newGraph OverallState).add_node node_1).add_node node_2).add_node
    node_3).add_edge START "node_1").add_edge "node_1" "node_2").add_edge
    "node_2" "node_3").add_edge "node_3" END

/-- The compiled demonstration graph. -/
def demoGraph : Graph :=
  { overallSchema := OverallState, chain := [node_1, node_2, node_3] }

/-- The notebook's initial state `{a: "set at start"}`. -/
def initState : State := [("a", "set at start")]

/-- A node whose input schema names a field `x` that no upstream producer
ever writes (the missing-field scenario of the spec). -/
def node_x : Node :=
  { name := "node_x", inputSchema := ["x"], outputSchema := OverallState,
    compute := fun _ => .ok [("a", "never reached")] }

/-- A node whose computation raises (the node-failure scenario of the
spec); the raised message models the original Python exception. -/
def node_boom : Node :=
  { name := "node_boom", inputSchema := OverallState, outputSchema := OverallState,
    compute := fun _ => .error "ValueError: boom" }

/-- Modelled from the spec: the Executor's state machine states —
`Pending` before the run starts, `Running` with the remaining chain and
the accumulated state, `Completed` with the final state, `Failed` with
the aborting error. -/
inductive ExecState where
  | Pending (init : State)
  | Running (rest : List Node) (acc : State)
  | Completed (final : State)
  | Failed (e : RunError)

/-- Modelled from the spec: one transition of the Executor's state
machine: enter the chain, finish at END, fail at projection, fail at
invocation, or project–invoke–merge and move to the successor. -/
def step (g : Graph) : ExecState → ExecState
  | .Pending init => .Running g.chain init
  | .Running [] acc => .Completed (filterSchema g.overallSchema acc)
  | .Running (n :: rest) acc =>
    match project n.inputSchema acc with
    | .error f => .Failed (.MissingFieldError n.name f)
    | .ok inp =>
      match n.compute inp with
      | .error msg => .Failed (.NodeExecutionError n.name msg)
      | .ok out => .Running rest (merge acc out)
  | .Completed s => .Completed s
  | .Failed e => .Failed e

/-- Iterate the Executor's transition function. -/
def stepN (g : Graph) : Nat → ExecState → ExecState
  | 0, s => s
  | k + 1, s => stepN g k (step g s)

/-- Whether an Executor state is final (`Completed` or `Failed`). -/
def isTerminal : ExecState → Bool
  | .Completed _ => true
  | .Failed _ => true
  | .Pending _ => false
  | .Running _ _ => false

/-- Modelled from the spec: the Executor's transition relation, one
constructor per transition listed in the spec's state machine. -/
inductive Exec (g : Graph) : ExecState → ExecState → Prop where
  | start (init : State) : Exec g (.Pending init) (.Running g.chain init)
  | finish (acc : State) :
      Exec g (.Running [] acc) (.Completed (filterSchema g.overallSchema acc))
  | projFail (n : Node) (rest : List Node) (acc : State) (f : Field)
      (h : project n.inputSchema acc = .error f) :
      Exec g (.Running (n :: rest) acc) (.Failed (.MissingFieldError n.name f))
  | invokeFail (n : Node) (rest : List Node) (acc inp : State) (msg : String)
      (h1 : project n.inputSchema acc = .ok inp) (h2 : n.compute inp = .error msg) :
      Exec g (.Running (n :: rest) acc) (.Failed (.NodeExecutionError n.name msg))
  | stepOk (n : Node) (rest : List Node) (acc inp out : State)
      (h1 : project n.inputSchema acc = .ok inp) (h2 : n.compute inp = .ok out) :
      Exec g (.Running (n :: rest) acc) (.Running rest (merge acc out))

end PrivState

namespace PrivState

/-- Looking up a field in a cons state checks the head binding first. -/
theorem get_cons (g : Field) (w : Value) (rest : State) (f : Field) :
    State.get ((g, w) :: rest) f = if g == f then some w else State.get rest f := by
  by_cases h : g == f <;> simp [State.get, List.find?, h]

/-- A field is present in a cons state iff it is the head key or present
in the tail. -/
theorem hasField_cons (g : Field) (w : Value) (rest : State) (f : Field) :
    State.hasField ((g, w) :: rest) f = ((g == f) || State.hasField rest f) := by
  simp [State.hasField]

/-- A field is present exactly when `get` succeeds. -/
theorem hasField_eq_isSome_get (s : State) (f : Field) :
    State.hasField s f = (State.get s f).isSome := by
  induction s with
  | nil => rfl
  | cons p rest ih =>
    obtain ⟨g, w⟩ := p
    by_cases h : g == f <;> simp [hasField_cons, get_cons, h, ih]

/-- `setField` binds the written field to the written value. -/
theorem setField_get_self (s : State) (f : Field) (v : Value) :
    State.get (setField s f v) f = some v := by
  induction s with
  | nil => simp [setField, get_cons]
  | cons p rest ih =>
    obtain ⟨g, w⟩ := p
    by_cases h : g == f
    · simp [setField, h, get_cons]
    · simp [setField, h, get_cons, ih]

/-- `setField` leaves every other field's binding unchanged. -/
theorem setField_get_other (s : State) (f : Field) (v : Value) (g : Field)
    (hne : f ≠ g) :
    State.get (setField s f v) g = State.get s g := by
  induction s with
  | nil => simp [setField, get_cons, State.get, hne]
  | cons p rest ih =>
    obtain ⟨k, w⟩ := p
    by_cases h : k == f
    · have hk : k = f := by simpa using h
      subst hk
      simp [setField, get_cons, hne]
    · simp [setField, h, get_cons, ih]

/-- `setField` makes its field present and preserves the presence of every
field that was present before. -/
theorem setField_hasField (s : State) (f : Field) (v : Value) (g : Field) :
    State.hasField (setField s f v) g = (State.hasField s g || (f == g)) := by
  induction s with
  | nil => simp [setField, hasField_cons, State.hasField]
  | cons p rest ih =>
    obtain ⟨k, w⟩ := p
    by_cases h : k == f
    · have hk : k = f := by simpa using h
      subst hk
      by_cases hg : k == g <;> simp [setField, hasField_cons, hg, ih]
    · simp [setField, h, hasField_cons, ih, Bool.or_assoc, Bool.or_comm, Bool.or_left_comm]

/-- Merging a cons output writes the head field first. -/
theorem merge_cons (s : State) (f : Field) (v : Value) (rest : State) :
    merge s ((f, v) :: rest) = merge (setField s f v) rest := rfl

/-- A field is present after a merge iff it was present before or the
merged output names it. -/
theorem merge_hasField (s out : State) (f : Field) :
    State.hasField (merge s out) f = (State.hasField s f || State.hasField out f) := by
  induction out generalizing s with
  | nil => simp [merge, State.hasField]
  | cons p rest ih =>
    obtain ⟨g, w⟩ := p
    simp [merge_cons, ih, setField_hasField, hasField_cons, Bool.or_assoc, Bool.or_comm,
      Bool.or_left_comm]

/-- A field the merged output does not name keeps its previous binding. -/
theorem merge_get_of_absent (s out : State) (f : Field)
    (h : State.hasField out f = false) :
    State.get (merge s out) f = State.get s f := by
  induction out generalizing s with
  | nil => simp [merge]
  | cons p rest ih =>
    obtain ⟨g, w⟩ := p
    rw [hasField_cons, Bool.or_eq_false_iff] at h
    have hne : g ≠ f := by simpa using h.1
    rw [merge_cons, ih _ h.2, setField_get_other _ _ _ _ hne]

/-- A field the merged output names (outputs have no duplicate keys, being
TypedDict values) ends bound to the output's value. -/
theorem merge_get_of_present (s out : State) (f : Field) (v : Value)
    (hnd : (out.map Prod.fst).Nodup) (hv : State.get out f = some v) :
    State.get (merge s out) f = some v := by
  induction out generalizing s with
  | nil => simp [State.get] at hv
  | cons p rest ih =>
    obtain ⟨g, w⟩ := p
    rw [List.map_cons, List.nodup_cons] at hnd
    rw [get_cons] at hv
    by_cases h : g == f
    · rw [if_pos h] at hv
      have hg : g = f := by simpa using h
      subst hg
      have habs : State.hasField rest g = false := by
        rw [hasField_eq_isSome_get]
        cases hget : State.get rest g with
        | none => rfl
        | some u =>
          exfalso
          apply hnd.1
          rw [State.get, Option.map_eq_some'] at hget
          obtain ⟨q, hq, hq2⟩ := hget
          have hqmem : q ∈ rest := List.mem_of_find?_eq_some hq
          have hqg : q.1 = g := by simpa using List.find?_some hq
          exact List.mem_map.mpr ⟨q, hqmem, by simpa using hqg⟩
      rw [merge_cons, merge_get_of_absent _ _ _ habs, setField_get_self]
      simpa using hv
    · rw [if_neg h] at hv
      rw [merge_cons, ih _ hnd.2 hv]

end PrivState

namespace PrivState

/-- A successful projection's field list is exactly the schema. -/
theorem project_ok_keys (schema : Schema) (s : State) (t : State)
    (h : project schema s = .ok t) : State.keys t = schema := by
  induction schema generalizing t with
  | nil =>
    simp [project] at h
    simp [← h, State.keys]
  | cons f rest ih =>
    cases hget : State.get s f with
    | none => simp [project, hget] at h
    | some v =>
      simp only [project, hget, Except.map] at h
      cases hrec : project rest s with
      | error g => rw [hrec] at h; simp at h
      | ok t2 =>
        rw [hrec] at h
        simp at h
        subst h
        simp [State.keys]
        exact ih t2 hrec

/-- If some schema field was never written, projection fails, reporting a
schema field that was never written. -/
theorem project_error_of_missing (schema : Schema) (s : State) (x : Field)
    (hx : x ∈ schema) (hmiss : State.hasField s x = false) :
    ∃ g, g ∈ schema ∧ State.hasField s g = false ∧ project schema s = .error g := by
  induction schema with
  | nil => simp at hx
  | cons f rest ih =>
    cases hget : State.get s f with
    | none =>
      refine ⟨f, List.mem_cons_self f rest, ?_, by simp [project, hget]⟩
      rw [hasField_eq_isSome_get, hget]
      rfl
    | some v =>
      have hxf : x ≠ f := by
        intro hxf
        subst hxf
        rw [hasField_eq_isSome_get, hget] at hmiss
        simp at hmiss
      have hxr : x ∈ rest := by
        rcases List.mem_cons.mp hx with h | h
        · exact absurd h hxf
        · exact h
      obtain ⟨g, hg1, hg2, hg3⟩ := ih hxr
      exact ⟨g, List.mem_cons_of_mem f hg1, hg2, by simp [project, hget, hg3, Except.map]⟩

end PrivState

/-- C1: running the demonstrated graph (overall schema a; node_1 reading a
and writing private_data; node_2 reading private_data and writing a;
node_3 reading and writing a; edges START → node_1 → node_2 → node_3 →
END) on the initial state a = "set at start" produces exactly the
notebook's trace: node_1's merge yields the accumulated state with a =
"set at start" and private_data = "set by node_1"; node_2 receives only
private_data = "set by node_1" and its merge yields a = "set by node_2"
with private_data kept; node_3 receives only a = "set by node_2"; and the
run's final result is a = "set by node_3". -/
theorem PrivState.C1_demo_run :
    PrivState.demoBuilder.compile = .ok PrivState.demoGraph ∧
    PrivState.demoGraph.trace PrivState.initState =
      [.invoked "node_1" [("a", "set at start")],
       .merged "node_1" [("a", "set at start"), ("private_data", "set by node_1")],
       .invoked "node_2" [("private_data", "set by node_1")],
       .merged "node_2" [("a", "set by node_2"), ("private_data", "set by node_1")],
       .invoked "node_3" [("a", "set by node_2")],
       .merged "node_3" [("a", "set by node_3"), ("private_data", "set by node_1")]] ∧
    PrivState.demoGraph.run PrivState.initState = .ok [("a", "set by node_3")] :=
  ⟨rfl, rfl, rfl⟩

/-- C4: merge is a pure overwrite-or-create of exactly the fields the node
returned: a field present after the merge is one that was present before
or is named by the output, a field the output does not name keeps its
previous binding (so no field is ever implicitly removed), and a field the
output names ends bound to the output's value. -/
theorem PrivState.C4_merge_frame (s out : PrivState.State) (f : PrivState.Field) :
    (PrivState.State.hasField (PrivState.merge s out) f =
      (PrivState.State.hasField s f || PrivState.State.hasField out f)) ∧
    (PrivState.State.hasField out f = false →
      PrivState.State.get (PrivState.merge s out) f = PrivState.State.get s f) ∧
    ((out.map Prod.fst).Nodup → ∀ v, PrivState.State.get out f = some v →
      PrivState.State.get (PrivState.merge s out) f = some v) :=
  ⟨PrivState.merge_hasField s out f,
   fun h => PrivState.merge_get_of_absent s out f h,
   fun hnd v hv => PrivState.merge_get_of_present s out f v hnd hv⟩

/-- C4 witness: node_2's merge of `{a}` into the accumulated state leaves
`private_data` untouched and overwrites `a`. -/
theorem PrivState.C4_merge_frame_witness :
    (PrivState.State.get
      (PrivState.merge [("a", "set at start"), ("private_data", "set by node_1")]
        [("a", "set by node_2")]) "private_data" =
      PrivState.State.get [("a", "set at start"), ("private_data", "set by node_1")]
        "private_data") ∧
    (PrivState.State.get
      (PrivState.merge [("a", "set at start"), ("private_data", "set by node_1")]
        [("a", "set by node_2")]) "a" = some "set by node_2") :=
  ⟨(PrivState.C4_merge_frame [("a", "set at start"), ("private_data", "set by node_1")]
      [("a", "set by node_2")] "private_data").2.1 (by decide),
   (PrivState.C4_merge_frame [("a", "set at start"), ("private_data", "set by node_1")]
      [("a", "set by node_2")] "a").2.2 (by decide) "set by node_2" (by decide)⟩

namespace PrivState

/-- Every invocation recorded by the executor carries an input whose field
list is exactly the invoked node's declared input schema. -/
theorem execChain_invoked_schema (chain : List Node) (acc : State) (nm : String)
    (inp : State) (h : Step.invoked nm inp ∈ (execChain chain acc).1) :
    ∃ n, n ∈ chain ∧ n.name = nm ∧ State.keys inp = n.inputSchema := by
  induction chain generalizing acc with
  | nil => simp [execChain] at h
  | cons n rest ih =>
    cases hproj : project n.inputSchema acc with
    | error f => simp [execChain, hproj] at h
    | ok inp2 =>
      cases hcomp : n.compute inp2 with
      | error msg =>
        simp [execChain, hproj, hcomp] at h
        exact ⟨n, List.mem_cons_self n rest, h.1.symm,
          h.2 ▸ project_ok_keys n.inputSchema acc inp2 hproj⟩
      | ok out =>
        simp only [execChain, hproj, hcomp] at h
        rcases hrec : execChain rest (merge acc out) with ⟨tr, res⟩
        rw [hrec] at h
        simp [List.mem_cons] at h
        rcases h with ⟨h1, h2⟩ | h
        · exact ⟨n, List.mem_cons_self n rest, h1.symm,
            h2 ▸ project_ok_keys n.inputSchema acc inp2 hproj⟩
        · have h' : Step.invoked nm inp ∈ (execChain rest (merge acc out)).1 := by
            rw [hrec]; exact h
          obtain ⟨n2, hn1, hn2, hn3⟩ := ih (merge acc out) h'
          exact ⟨n2, List.mem_cons_of_mem n hn1, hn2, hn3⟩

end PrivState

/-- C2: projection isolation — at every step of any run, the input state
passed to an invoked node has a field set exactly equal to that node's
declared input schema, so a node never observes a field absent from its
schema even when the field is present in the accumulated state. -/
theorem PrivState.C2_projection_isolation (chain : List PrivState.Node)
    (acc : PrivState.State) (nm : String) (inp : PrivState.State)
    (h : PrivState.Step.invoked nm inp ∈ (PrivState.execChain chain acc).1) :
    ∃ n, n ∈ chain ∧ n.name = nm ∧ PrivState.State.keys inp = n.inputSchema :=
  PrivState.execChain_invoked_schema chain acc nm inp h

/-- C2 witness: in the demonstrated run node_3 is invoked on an input
whose field list is exactly node_3's schema (a alone, never
private_data). -/
theorem PrivState.C2_projection_isolation_witness :
    ∃ n, n ∈ PrivState.demoGraph.chain ∧ n.name = "node_3" ∧
      PrivState.State.keys [("a", "set by node_2")] = n.inputSchema :=
  PrivState.C2_projection_isolation PrivState.demoGraph.chain PrivState.initState
    "node_3" [("a", "set by node_2")] (by decide)

namespace PrivState

/-- Looking a field up in the schema-filtered state returns its
accumulated value when the schema names it and nothing otherwise. -/
theorem filterSchema_get (schema : Schema) (s : State) (f : Field) :
    State.get (filterSchema schema s) f =
      if schema.contains f then State.get s f else none := by
  induction s with
  | nil => simp [filterSchema, State.get]
  | cons p rest ih =>
    obtain ⟨g, w⟩ := p
    by_cases hc : g ∈ schema
    · have hfc : filterSchema schema ((g, w) :: rest) = (g, w) :: filterSchema schema rest := by
        simp [filterSchema, List.filter_cons, hc]
      by_cases hgf : g = f
      · subst hgf
        rw [hfc, get_cons, get_cons]
        simp [hc]
      · have hgf2 : (g == f) = false := by simpa using hgf
        rw [hfc, get_cons, hgf2, ih, get_cons, hgf2]
        simp
    · have hfc : filterSchema schema ((g, w) :: rest) = filterSchema schema rest := by
        simp [filterSchema, List.filter_cons, hc]
      by_cases hgf : g = f
      · subst hgf
        rw [hfc, ih]
        simp [hc]
      · have hgf2 : (g == f) = false := by simpa using hgf
        rw [hfc, ih, get_cons, hgf2]
        simp

end PrivState

/-- C3 counterexample: in the demonstrated run the full accumulated
snapshot still holds private_data, but the graph's final return value is
only a = "set by node_3" — the final value is not the full snapshot, so
the claim fails at this input. -/
theorem PrivState.C3_counterexample :
    PrivState.demoGraph.rawResult PrivState.initState =
      .ok [("a", "set by node_3"), ("private_data", "set by node_1")] ∧
    PrivState.demoGraph.run PrivState.initState = .ok [("a", "set by node_3")] ∧
    PrivState.State.hasField
      [("a", "set by node_3"), ("private_data", "set by node_1")] "private_data" = true ∧
    PrivState.State.hasField [("a", "set by node_3")] "private_data" = false ∧
    PrivState.demoGraph.run PrivState.initState ≠
      PrivState.demoGraph.rawResult PrivState.initState := by
  refine ⟨rfl, rfl, rfl, rfl, fun h => ?_⟩
  have h2 : (Except.ok [("a", "set by node_3")] :
      Except PrivState.RunError PrivState.State) =
      .ok [("a", "set by node_3"), ("private_data", "set by node_1")] := h
  simp at h2

/-- C3 amended: for every run that reaches END, the graph's final return
value is the accumulated snapshot filtered to the overall schema — a
field keeps its accumulated value in the final result exactly when the
overall schema names it, and fields outside the overall schema (such as
private_data) are absent from the final result. -/
theorem PrivState.C3_final_is_filtered_snapshot (g : PrivState.Graph)
    (init acc : PrivState.State) (f : PrivState.Field)
    (h : g.rawResult init = .ok acc) :
    g.run init = .ok (PrivState.filterSchema g.overallSchema acc) ∧
    PrivState.State.get (PrivState.filterSchema g.overallSchema acc) f =
      (if g.overallSchema.contains f then PrivState.State.get acc f else none) := by
  constructor
  · rw [PrivState.Graph.run, h]
    rfl
  · exact PrivState.filterSchema_get g.overallSchema acc f

/-- C3 amended witness: the demonstrated run's final value is the
snapshot filtered to the overall schema, and private_data is filtered
out. -/
theorem PrivState.C3_final_is_filtered_snapshot_witness :
    PrivState.demoGraph.run PrivState.initState =
      .ok (PrivState.filterSchema PrivState.demoGraph.overallSchema
        [("a", "set by node_3"), ("private_data", "set by node_1")]) ∧
    PrivState.State.get
      (PrivState.filterSchema PrivState.demoGraph.overallSchema
        [("a", "set by node_3"), ("private_data", "set by node_1")]) "private_data" =
      (if PrivState.demoGraph.overallSchema.contains "private_data" then
        PrivState.State.get
          [("a", "set by node_3"), ("private_data", "set by node_1")] "private_data"
      else none) :=
  PrivState.C3_final_is_filtered_snapshot PrivState.demoGraph PrivState.initState
    [("a", "set by node_3"), ("private_data", "set by node_1")] "private_data" rfl

namespace PrivState

/-- The Executor's transition relation is deterministic: a state has at
most one successor. -/
theorem Exec.deterministic {g : Graph} {s t1 t2 : ExecState}
    (h1 : Exec g s t1) (h2 : Exec g s t2) : t1 = t2 := by
  cases h1 <;> cases h2 <;> simp_all

end PrivState

/-- C5: determinism — the Executor's transition relation assigns every
state at most one successor, and two runs of a compiled graph from equal
initial states produce identical step traces (hence identical node
invocations with identical inputs in identical order) and identical final
results. -/
theorem PrivState.C5_determinism (g : PrivState.Graph)
    (s t1 t2 : PrivState.ExecState) (init1 init2 : PrivState.State)
    (h1 : PrivState.Exec g s t1) (h2 : PrivState.Exec g s t2)
    (hinit : init1 = init2) :
    t1 = t2 ∧ g.trace init1 = g.trace init2 ∧ g.run init1 = g.run init2 := by
  subst hinit
  exact ⟨PrivState.Exec.deterministic h1 h2, rfl, rfl⟩

/-- C5 witness: from Pending on the demonstrated initial state both
transitions lead to the same Running state, and the demonstrated run is
self-identical. -/
theorem PrivState.C5_determinism_witness :
    PrivState.ExecState.Running PrivState.demoGraph.chain PrivState.initState =
      PrivState.ExecState.Running PrivState.demoGraph.chain PrivState.initState ∧
    PrivState.demoGraph.trace PrivState.initState =
      PrivState.demoGraph.trace PrivState.initState ∧
    PrivState.demoGraph.run PrivState.initState =
      PrivState.demoGraph.run PrivState.initState :=
  PrivState.C5_determinism PrivState.demoGraph
    (.Pending PrivState.initState)
    (.Running PrivState.demoGraph.chain PrivState.initState)
    (.Running PrivState.demoGraph.chain PrivState.initState)
    PrivState.initState PrivState.initState
    (PrivState.Exec.start PrivState.initState)
    (PrivState.Exec.start PrivState.initState) rfl

namespace PrivState

/-- The transition function fixes terminal states. -/
theorem step_terminal (g : Graph) (s : ExecState) (h : isTerminal s = true) :
    step g s = s := by
  cases s with
  | Pending i => simp [isTerminal] at h
  | Running c a => simp [isTerminal] at h
  | Completed f => rfl
  | Failed e => rfl

/-- Iterating the transition function fixes terminal states. -/
theorem stepN_terminal (g : Graph) (k : Nat) (s : ExecState)
    (h : isTerminal s = true) : stepN g k s = s := by
  induction k with
  | zero => rfl
  | succ k ih => rw [stepN, step_terminal g s h]; exact ih

/-- From a Running state, one transition per remaining node plus one
reaches a terminal state. -/
theorem stepN_running_terminal (g : Graph) (chain : List Node) :
    ∀ acc, isTerminal (stepN g (chain.length + 1) (.Running chain acc)) = true := by
  induction chain with
  | nil => intro acc; rfl
  | cons n rest ih =>
    intro acc
    show isTerminal (stepN g ((n :: rest).length) (step g (.Running (n :: rest) acc))) = true
    cases hproj : project n.inputSchema acc with
    | error f =>
      rw [show step g (.Running (n :: rest) acc) =
        .Failed (.MissingFieldError n.name f) by simp [step, hproj]]
      rw [stepN_terminal g _ _ (by rfl)]
      rfl
    | ok inp =>
      cases hcomp : n.compute inp with
      | error msg =>
        rw [show step g (.Running (n :: rest) acc) =
          .Failed (.NodeExecutionError n.name msg) by simp [step, hproj, hcomp]]
        rw [stepN_terminal g _ _ (by rfl)]
        rfl
      | ok out =>
        rw [show step g (.Running (n :: rest) acc) =
          .Running rest (merge acc out) by simp [step, hproj, hcomp]]
        exact ih (merge acc out)

end PrivState

/-- C8: termination — for every compiled graph and initial state, the
Executor's step function starting from Pending reaches a terminal state
(Completed or Failed) after finitely many transitions, one per node of
the finite chain plus entry and exit. -/
theorem PrivState.C8_termination (g : PrivState.Graph) (init : PrivState.State) :
    PrivState.isTerminal
      (PrivState.stepN g (g.chain.length + 2) (.Pending init)) = true := by
  show PrivState.isTerminal
    (PrivState.stepN g (g.chain.length + 1) (.Running g.chain init)) = true
  exact PrivState.stepN_running_terminal g g.chain init

namespace PrivState

/-- Unfolding of the executor on a node whose projection and computation
both succeed. -/
theorem execChain_cons_ok (n : Node) (rest : List Node) (acc inp out : State)
    (hproj : project n.inputSchema acc = .ok inp)
    (hcomp : n.compute inp = .ok out) :
    execChain (n :: rest) acc =
      (Step.invoked n.name inp :: Step.merged n.name (merge acc out) ::
        (execChain rest (merge acc out)).1,
       (execChain rest (merge acc out)).2) := by
  rcases h : execChain rest (merge acc out) with ⟨tr, res⟩
  simp [execChain, hproj, hcomp, h]

/-- Executing a concatenated chain first runs the prefix; if the prefix
completes, execution continues on the suffix from the accumulated state,
and the traces concatenate. -/
theorem execChain_append_ok (xs ys : List Node) (init acc : State) (tr : List Step)
    (h : execChain xs init = (tr, .ok acc)) :
    execChain (xs ++ ys) init =
      (tr ++ (execChain ys acc).1, (execChain ys acc).2) := by
  induction xs generalizing init tr with
  | nil =>
    simp [execChain] at h
    obtain ⟨h1, h2⟩ := h
    subst h1
    subst h2
    simp
  | cons n rest ih =>
    cases hproj : project n.inputSchema init with
    | error f => simp [execChain, hproj] at h
    | ok inp =>
      cases hcomp : n.compute inp with
      | error msg =>
        simp [execChain, hproj, hcomp] at h
      | ok out =>
        rw [execChain_cons_ok n rest init inp out hproj hcomp] at h
        rcases hrec : execChain rest (merge init out) with ⟨tr2, res2⟩
        rw [hrec] at h
        simp at h
        obtain ⟨htr, hres⟩ := h
        have hrest : execChain rest (merge init out) = (tr2, .ok acc) := by
          rw [hrec, hres]
        rw [List.cons_append, execChain_cons_ok n (rest ++ ys) init inp out hproj hcomp,
          ih (merge init out) tr2 hrest]
        subst htr
        simp

/-- In a completed run every chain node's name is invoked exactly once,
in chain order. -/
theorem execChain_ok_names (chain : List Node) (init fin : State)
    (h : (execChain chain init).2 = .ok fin) :
    invokedNames (execChain chain init).1 = chain.map Node.name := by
  induction chain generalizing init with
  | nil => simp [execChain, invokedNames]
  | cons n rest ih =>
    cases hproj : project n.inputSchema init with
    | error f => simp [execChain, hproj] at h
    | ok inp =>
      cases hcomp : n.compute inp with
      | error msg => simp [execChain, hproj, hcomp] at h
      | ok out =>
        rw [execChain_cons_ok n rest init inp out hproj hcomp] at h ⊢
        simp at h
        have hih := ih (merge init out) h
        simp only [invokedNames, List.filterMap_cons, List.map_cons]
        simp only [invokedNames] at hih
        simp [hih]

end PrivState

/-- C6: missing field — if the chain up to some node completes with an
accumulated state lacking a field the node's input schema names, the run
of the full chain fails with MissingFieldError for that node at the
projection step: the trace is exactly the prefix's trace, so the node's
computation is never invoked. -/
theorem PrivState.C6_missing_field (pre : List PrivState.Node) (n : PrivState.Node)
    (post : List PrivState.Node) (init acc : PrivState.State)
    (tr : List PrivState.Step) (x : PrivState.Field)
    (hpre : PrivState.execChain pre init = (tr, .ok acc))
    (hx : x ∈ n.inputSchema) (hmiss : PrivState.State.hasField acc x = false) :
    ∃ f, f ∈ n.inputSchema ∧ PrivState.State.hasField acc f = false ∧
      PrivState.execChain (pre ++ n :: post) init =
        (tr, .error (.MissingFieldError n.name f)) := by
  obtain ⟨f, hf1, hf2, hf3⟩ :=
    PrivState.project_error_of_missing n.inputSchema acc x hx hmiss
  refine ⟨f, hf1, hf2, ?_⟩
  rw [PrivState.execChain_append_ok pre (n :: post) init acc tr hpre]
  simp [PrivState.execChain, hf3]

/-- C6 witness: inserting after node_1 a node that needs the never-written
field x makes the run fail with MissingFieldError for that node, with
node_1's two steps as the whole trace (the failing node is never
invoked). -/
theorem PrivState.C6_missing_field_witness :
    ∃ f, f ∈ PrivState.node_x.inputSchema ∧
      PrivState.State.hasField
        [("a", "set at start"), ("private_data", "set by node_1")] f = false ∧
      PrivState.execChain
        ([PrivState.node_1] ++ PrivState.node_x :: [PrivState.node_3])
        PrivState.initState =
        ([.invoked "node_1" [("a", "set at start")],
          .merged "node_1" [("a", "set at start"), ("private_data", "set by node_1")]],
         .error (.MissingFieldError "node_x" f)) :=
  PrivState.C6_missing_field [PrivState.node_1] PrivState.node_x [PrivState.node_3]
    PrivState.initState [("a", "set at start"), ("private_data", "set by node_1")]
    [.invoked "node_1" [("a", "set at start")],
     .merged "node_1" [("a", "set at start"), ("private_data", "set by node_1")]]
    "x" rfl (by decide) (by decide)

/-- C7: node failure — if the chain up to some node completes and that
node's computation raises, the run terminates with NodeExecutionError
carrying the node's name and the original failure; the trace records the
single invocation of the failing node with no merge for it and no steps
for any later node, so the accumulated state reflects exactly the merges
of the nodes completed before the failure. -/
theorem PrivState.C7_node_failure (pre : List PrivState.Node) (n : PrivState.Node)
    (post : List PrivState.Node) (init acc inp : PrivState.State)
    (tr : List PrivState.Step) (msg : String)
    (hpre : PrivState.execChain pre init = (tr, .ok acc))
    (hproj : PrivState.project n.inputSchema acc = .ok inp)
    (hfail : n.compute inp = .error msg) :
    PrivState.execChain (pre ++ n :: post) init =
      (tr ++ [.invoked n.name inp], .error (.NodeExecutionError n.name msg)) := by
  rw [PrivState.execChain_append_ok pre (n :: post) init acc tr hpre]
  simp [PrivState.execChain, hproj, hfail]

/-- C7 witness: replacing node_2 by a node that raises makes the run end
with NodeExecutionError "node_boom" carrying the original message; the
trace holds node_1's completed merge and the single invocation of the
failing node, and nothing for node_3. -/
theorem PrivState.C7_node_failure_witness :
    PrivState.execChain
      ([PrivState.node_1] ++ PrivState.node_boom :: [PrivState.node_3])
      PrivState.initState =
      ([.invoked "node_1" [("a", "set at start")],
        .merged "node_1" [("a", "set at start"), ("private_data", "set by node_1")],
        .invoked "node_boom" [("a", "set at start")]],
       .error (.NodeExecutionError "node_boom" "ValueError: boom")) :=
  PrivState.C7_node_failure [PrivState.node_1] PrivState.node_boom [PrivState.node_3]
    PrivState.initState [("a", "set at start"), ("private_data", "set by node_1")]
    [("a", "set at start")]
    [.invoked "node_1" [("a", "set at start")],
     .merged "node_1" [("a", "set at start"), ("private_data", "set by node_1")]]
    "ValueError: boom" rfl rfl rfl

/-- C9: add_node accepts a bare callable carrying its own name and
annotation-derived schemas: the demonstration builder registers the three
functions under their own names, add_edge resolves "node_2" by string to
the registered node whose input schema is the Node2Input annotation
(private_data alone), compilation succeeds, and node_2 is in fact invoked
on exactly the private_data projection. -/
theorem PrivState.C9_bare_callable_registration :
    PrivState.demoBuilder.nodes.map PrivState.Node.name =
      ["node_1", "node_2", "node_3"] ∧
    PrivState.findNode PrivState.demoBuilder.nodes "node_2" =
      some PrivState.node_2 ∧
    PrivState.node_2.inputSchema = PrivState.Node2Input ∧
    PrivState.demoBuilder.compile = .ok PrivState.demoGraph ∧
    PrivState.Step.invoked "node_2" [("private_data", "set by node_1")] ∈
      PrivState.demoGraph.trace PrivState.initState :=
  ⟨rfl, rfl, rfl, rfl, by decide⟩

/-- C10: in every completed run each chain node is invoked exactly once,
in edge order (the invoked names equal the chain's names), and the first
node's input is the projection of the unmodified initial state, recorded
as the head of the trace. -/
theorem PrivState.C10_nodes_once_in_order (g : PrivState.Graph)
    (init fin : PrivState.State)
    (h : (PrivState.execChain g.chain init).2 = .ok fin) :
    PrivState.invokedNames (PrivState.execChain g.chain init).1 =
      g.chain.map PrivState.Node.name ∧
    ∀ n rest, g.chain = n :: rest →
      ∃ inp, PrivState.project n.inputSchema init = .ok inp ∧
        (PrivState.execChain g.chain init).1.head? = some (.invoked n.name inp) := by
  refine ⟨PrivState.execChain_ok_names g.chain init fin h, ?_⟩
  intro n rest hchain
  rw [hchain] at h ⊢
  cases hproj : PrivState.project n.inputSchema init with
  | error f => simp [PrivState.execChain, hproj] at h
  | ok inp =>
    cases hcomp : n.compute inp with
    | error msg => simp [PrivState.execChain, hproj, hcomp] at h
    | ok out =>
      refine ⟨inp, rfl, ?_⟩
      simp only [PrivState.execChain, hproj, hcomp]
      rcases hrec : PrivState.execChain rest (PrivState.merge init out) with ⟨tr2, res2⟩
      rfl

/-- C10 witness: in the demonstrated run the invoked names are node_1,
node_2, node_3 in order, and node_1's input is the projection of the
unmodified initial state. -/
theorem PrivState.C10_nodes_once_in_order_witness :
    PrivState.invokedNames
      (PrivState.execChain PrivState.demoGraph.chain PrivState.initState).1 =
      PrivState.demoGraph.chain.map PrivState.Node.name ∧
    ∀ n rest, PrivState.demoGraph.chain = n :: rest →
      ∃ inp, PrivState.project n.inputSchema PrivState.initState = .ok inp ∧
        (PrivState.execChain PrivState.demoGraph.chain PrivState.initState).1.head? =
          some (.invoked n.name inp) :=
  PrivState.C10_nodes_once_in_order PrivState.demoGraph PrivState.initState
    [("a", "set by node_3"), ("private_data", "set by node_1")] rfl
